import Mathlib

/-!
Shallow embedding of the generation-orchestrator core of the
"shungene for Contents" repository (src/types.ts, src/App.tsx,
src/services/geminiService.ts), together with theorems settling the
frozen claims about its natural-language specification.

Conventions of the embedding:
* TypeScript optional fields (`x?: T`, values that may be `undefined`)
  are modelled as `Option T`.
* JavaScript timestamps (`Date.now()`) are passed in as explicit `Nat`
  parameters, making the functions deterministic.
* Asynchronous provider calls are modelled by explicit oracle functions
  (`Nat → Except JsError _`, indexed by attempt number), and thrown
  JavaScript errors by `Except`.
-/

/-! ## Data model (src/types.ts) -/

/-- `DesignSpec` from src/types.ts: four required string attributes. -/
structure DesignSpec where
  layoutBlueprint : String
  visualAssetInstruction : String
  typographyInstruction : String
  colorPalette : String
  deriving DecidableEq, Repr

/-- `SwipeScreenHistory` from src/types.ts: one undo/redo snapshot. -/
structure SwipeScreenHistory where
  designSpec : Option DesignSpec
  imageData : Option String
  timestamp : Nat
  deriving DecidableEq, Repr

/-- The `type` union of `SwipeScreen` in src/types.ts. -/
inductive ScreenType where
  | hook
  | problem
  | empathy
  | solution
  | benefit
  | proofScreen
  | cta
  deriving DecidableEq, Repr

/-- The `visualStyle` union of `SwipeScreen` in src/types.ts. -/
inductive VisualStyle where
  | manga
  | standard
  deriving DecidableEq, Repr

/-- `SwipeScreen` from src/types.ts. -/
structure SwipeScreen where
  order : Nat
  type : ScreenType
  title : String
  mainCopy : String
  visualDescription : String
  designNote : String
  designSpec : Option DesignSpec
  imageData : Option String
  history : Option (List SwipeScreenHistory)
  redoHistory : Option (List SwipeScreenHistory)
  visualStyle : Option VisualStyle
  deriving DecidableEq, Repr

/-- `SwipeLP` from src/types.ts: the slide set. -/
structure SwipeLP where
  screens : List SwipeScreen
  concept : String
  deriving DecidableEq, Repr

/-- `AppState` enum from src/types.ts. -/
inductive AppState where
  | IDLE
  | ANALYZING
  | ANALYSIS_COMPLETE
  | GENERATING_LP
  | LP_CREATED
  | GENERATING_VISUALS
  | VISUALS_COMPLETE
  | ERROR
  deriving DecidableEq, Repr

/-! ## Slide history store: undo / redo (src/App.tsx lines 206-333) -/

/-- `handleUpdateScreen` (src/App.tsx 206-214): replace slide `index`
in the slide set, leaving everything else unchanged. -/
def handleUpdateScreen (lp : SwipeLP) (index : Nat) (updatedScreen : SwipeScreen) : SwipeLP :=
  { lp with screens := lp.screens.set index updatedScreen }

/-- `handleUndoVisual` (src/App.tsx 277-304).  `now` models `Date.now()`.
An out-of-range `index` is never exercised by the UI; it is modelled as a
no-op (the guard `!swipeLP || !Array.isArray(...)` likewise returns). -/
def handleUndoVisual (lp : SwipeLP) (index : Nat) (now : Nat) : SwipeLP :=
  match lp.screens[index]? with
  | none => lp
  | some screen =>
    match screen.history with
    | none => lp
    | some hist =>
      if hist = [] then lp
      else
        match hist.getLast? with
        | none => lp
        | some lastState =>
          let newHistory := hist.dropLast
          let currentEntry : SwipeScreenHistory :=
            { designSpec := screen.designSpec, imageData := screen.imageData, timestamp := now }
          let newRedoHistory := screen.redoHistory.getD [] ++ [currentEntry]
          let restoredScreen : SwipeScreen :=
            { screen with
              designSpec := lastState.designSpec
              imageData := lastState.imageData
              history := some newHistory
              redoHistory := some newRedoHistory }
          handleUpdateScreen lp index restoredScreen

/-- `handleRedoVisual` (src/App.tsx 306-333). -/
def handleRedoVisual (lp : SwipeLP) (index : Nat) (now : Nat) : SwipeLP :=
  match lp.screens[index]? with
  | none => lp
  | some screen =>
    match screen.redoHistory with
    | none => lp
    | some redoHist =>
      if redoHist = [] then lp
      else
        match redoHist.getLast? with
        | none => lp
        | some nextState =>
          let newRedoHistory := redoHist.dropLast
          let currentEntry : SwipeScreenHistory :=
            { designSpec := screen.designSpec, imageData := screen.imageData, timestamp := now }
          let newHistory := screen.history.getD [] ++ [currentEntry]
          let restoredScreen : SwipeScreen :=
            { screen with
              designSpec := nextState.designSpec
              imageData := nextState.imageData
              history := some newHistory
              redoHistory := some newRedoHistory }
          handleUpdateScreen lp index restoredScreen

/-! ## List helper lemmas -/

theorem getLast?_concat' {α : Type} (l : List α) (a : α) :
    (l ++ [a]).getLast? = some a :=
  List.getLast?_concat l

/-! ## Concrete sample data used by counterexamples and witnesses -/

def sampleSpecA : DesignSpec :=
  { layoutBlueprint := "layout A", visualAssetInstruction := "asset A"
    typographyInstruction := "type A", colorPalette := "#000000" }

def sampleSpecB : DesignSpec :=
  { layoutBlueprint := "layout B", visualAssetInstruction := "asset B"
    typographyInstruction := "type B", colorPalette := "#FFFFFF" }

/-- A slide whose undo history is empty but whose redo history is not. -/
def cexScreen : SwipeScreen :=
  { order := 1, type := ScreenType.hook, title := "t", mainCopy := "m"
    visualDescription := "v", designNote := "d"
    designSpec := some sampleSpecA, imageData := some "imgA"
    history := some []
    redoHistory := some [{ designSpec := some sampleSpecB, imageData := some "imgB", timestamp := 5 }]
    visualStyle := none }

def cexLP : SwipeLP := { screens := [cexScreen], concept := "concept" }

/-- A slide with a non-empty undo history (snapshot of the B-version). -/
def wScreen : SwipeScreen :=
  { cexScreen with
    history := some [{ designSpec := some sampleSpecB, imageData := some "imgB", timestamp := 3 }]
    redoHistory := some [] }

def wLP : SwipeLP := { screens := [wScreen], concept := "concept" }

/-! ## Claim C1: undo/redo round trip and empty-stack no-ops -/

/-- C1 (counterexample): the round-trip law as universally stated is false.
On a slide whose undo history is empty but whose redo history is non-empty,
`undo` is a no-op while `redo` still pops the redo stack, so undo-then-redo
does not restore the (designSpec, imageData) pair that was current before
the undo: it was (sampleSpecA, "imgA") and ends up (sampleSpecB, "imgB"). -/
theorem undoRedo_roundTrip_counterexample :
    ((cexLP.screens[0]?).map (fun s => (s.designSpec, s.imageData))
        = some (some sampleSpecA, some "imgA"))
    ∧ (((handleRedoVisual (handleUndoVisual cexLP 0 10) 0 11).screens[0]?).map
          (fun s => (s.designSpec, s.imageData))
        = some (some sampleSpecB, some "imgB"))
    ∧ ((some sampleSpecB, some "imgB") : Option DesignSpec × Option String)
        ≠ (some sampleSpecA, some "imgA") := by
  refine ⟨rfl, rfl, by decide⟩

/-- C1 (amended): undo on an empty (or absent) undo stack and redo on an
empty (or absent) redo stack are no-ops, and whenever the slide's undo
history is non-empty (so the undo actually pops), undo immediately followed
by redo restores the exact (designSpec, imageData) pair that was current
before the undo. -/
theorem undoRedo_roundTrip :
    ∀ (lp : SwipeLP) (index t1 t2 : Nat) (s : SwipeScreen),
      lp.screens[index]? = some s →
      ((s.history = none ∨ s.history = some []) → handleUndoVisual lp index t1 = lp)
      ∧ ((s.redoHistory = none ∨ s.redoHistory = some []) → handleRedoVisual lp index t1 = lp)
      ∧ (∀ hist, s.history = some hist → hist ≠ [] →
          ((handleRedoVisual (handleUndoVisual lp index t1) index t2).screens[index]?).map
              (fun s2 => (s2.designSpec, s2.imageData))
            = some (s.designSpec, s.imageData)) := by
  intro lp index t1 t2 s hs
  have hidx : index < lp.screens.length := by
    by_contra hc
    rw [List.getElem?_eq_none (Nat.le_of_not_lt hc)] at hs
    cases hs
  refine ⟨?_, ?_, ?_⟩
  · intro h
    rcases h with h | h <;> simp [handleUndoVisual, hs, h]
  · intro h
    rcases h with h | h <;> simp [handleRedoVisual, hs, h]
  · intro hist hh hne
    rcases List.eq_nil_or_concat hist with rfl | ⟨ys, last, rfl⟩
    · exact absurd rfl hne
    · have hu : handleUndoVisual lp index t1
          = handleUpdateScreen lp index
              { s with
                designSpec := last.designSpec
                imageData := last.imageData
                history := some ((ys ++ [last]).dropLast)
                redoHistory := some (s.redoHistory.getD []
                  ++ [{ designSpec := s.designSpec, imageData := s.imageData, timestamp := t1 }]) } := by
        simp [handleUndoVisual, hs, hh, getLast?_concat']
      rw [hu]
      have hs1 : (handleUpdateScreen lp index
          { s with
            designSpec := last.designSpec
            imageData := last.imageData
            history := some ((ys ++ [last]).dropLast)
            redoHistory := some (s.redoHistory.getD []
              ++ [{ designSpec := s.designSpec, imageData := s.imageData, timestamp := t1 }]) }).screens[index]?
          = some { s with
              designSpec := last.designSpec
              imageData := last.imageData
              history := some ((ys ++ [last]).dropLast)
              redoHistory := some (s.redoHistory.getD []
                ++ [{ designSpec := s.designSpec, imageData := s.imageData, timestamp := t1 }]) } :=
        List.getElem?_set_self hidx
      have hlen : index < (handleUpdateScreen lp index
          { s with
            designSpec := last.designSpec
            imageData := last.imageData
            history := some ((ys ++ [last]).dropLast)
            redoHistory := some (s.redoHistory.getD []
              ++ [{ designSpec := s.designSpec, imageData := s.imageData, timestamp := t1 }]) }).screens.length := by
        simpa [handleUpdateScreen] using hidx
      simp [handleRedoVisual, hs1, getLast?_concat', handleUpdateScreen,
        List.getElem?_set_self hidx]

/-- C1 (witness): the amended round trip at a concrete slide set whose
single slide has a one-entry undo history. -/
theorem undoRedo_roundTrip_witness :
    ((handleRedoVisual (handleUndoVisual wLP 0 10) 0 11).screens[0]?).map
        (fun s2 => (s2.designSpec, s2.imageData))
      = some (some sampleSpecA, some "imgA") :=
  (undoRedo_roundTrip wLP 0 10 11 wScreen rfl).2.2
    [{ designSpec := some sampleSpecB, imageData := some "imgB", timestamp := 3 }]
    rfl (by simp)

/-! ## Claim C9: undo/redo touch only the target slide's visual state -/

/-- Shape lemma: `handleUndoVisual` either leaves the slide set unchanged or
replaces exactly slide `index` by a screen that agrees with the old one on
every field other than designSpec, imageData, history, redoHistory. -/
theorem handleUndoVisual_shape (lp : SwipeLP) (index t : Nat) :
    handleUndoVisual lp index t = lp
    ∨ ∃ s r, lp.screens[index]? = some s
        ∧ handleUndoVisual lp index t = handleUpdateScreen lp index r
        ∧ r.order = s.order ∧ r.type = s.type ∧ r.title = s.title
        ∧ r.mainCopy = s.mainCopy ∧ r.visualDescription = s.visualDescription
        ∧ r.designNote = s.designNote ∧ r.visualStyle = s.visualStyle := by
  rcases hg : lp.screens[index]? with _ | screen
  · exact Or.inl (by simp [handleUndoVisual, hg])
  · rcases hh : screen.history with _ | hist
    · exact Or.inl (by simp [handleUndoVisual, hg, hh])
    · by_cases hemp : hist = []
      · exact Or.inl (by simp [handleUndoVisual, hg, hh, hemp])
      · rcases List.eq_nil_or_concat hist with rfl | ⟨ys, last, rfl⟩
        · exact absurd rfl hemp
        · refine Or.inr ⟨screen,
            { screen with
              designSpec := last.designSpec
              imageData := last.imageData
              history := some ((ys ++ [last]).dropLast)
              redoHistory := some (screen.redoHistory.getD []
                ++ [{ designSpec := screen.designSpec, imageData := screen.imageData,
                      timestamp := t }]) },
            rfl, ?_, rfl, rfl, rfl, rfl, rfl, rfl, rfl⟩
          simp [handleUndoVisual, hg, hh, hemp, getLast?_concat']

/-- Shape lemma for `handleRedoVisual`, mirror image of the undo case. -/
theorem handleRedoVisual_shape (lp : SwipeLP) (index t : Nat) :
    handleRedoVisual lp index t = lp
    ∨ ∃ s r, lp.screens[index]? = some s
        ∧ handleRedoVisual lp index t = handleUpdateScreen lp index r
        ∧ r.order = s.order ∧ r.type = s.type ∧ r.title = s.title
        ∧ r.mainCopy = s.mainCopy ∧ r.visualDescription = s.visualDescription
        ∧ r.designNote = s.designNote ∧ r.visualStyle = s.visualStyle := by
  rcases hg : lp.screens[index]? with _ | screen
  · exact Or.inl (by simp [handleRedoVisual, hg])
  · rcases hh : screen.redoHistory with _ | hist
    · exact Or.inl (by simp [handleRedoVisual, hg, hh])
    · by_cases hemp : hist = []
      · exact Or.inl (by simp [handleRedoVisual, hg, hh, hemp])
      · rcases List.eq_nil_or_concat hist with rfl | ⟨ys, last, rfl⟩
        · exact absurd rfl hemp
        · refine Or.inr ⟨screen,
            { screen with
              designSpec := last.designSpec
              imageData := last.imageData
              history := some (screen.history.getD []
                ++ [{ designSpec := screen.designSpec, imageData := screen.imageData,
                      timestamp := t }])
              redoHistory := some ((ys ++ [last]).dropLast) },
            rfl, ?_, rfl, rfl, rfl, rfl, rfl, rfl, rfl⟩
          simp [handleRedoVisual, hg, hh, hemp, getLast?_concat']

/-- Frame property shared by undo and redo, extracted from the shape lemmas. -/
theorem frame_of_shape (lp : SwipeLP) (index : Nat) (lp2 : SwipeLP)
    (h : lp2 = lp
      ∨ ∃ s r, lp.screens[index]? = some s
          ∧ lp2 = handleUpdateScreen lp index r
          ∧ r.order = s.order ∧ r.type = s.type ∧ r.title = s.title
          ∧ r.mainCopy = s.mainCopy ∧ r.visualDescription = s.visualDescription
          ∧ r.designNote = s.designNote ∧ r.visualStyle = s.visualStyle) :
    lp2.concept = lp.concept
    ∧ lp2.screens.length = lp.screens.length
    ∧ (∀ j, j ≠ index → lp2.screens[j]? = lp.screens[j]?)
    ∧ (∀ s s2, lp.screens[index]? = some s →
        lp2.screens[index]? = some s2 →
        s2.order = s.order ∧ s2.type = s.type ∧ s2.title = s.title
        ∧ s2.mainCopy = s.mainCopy ∧ s2.visualDescription = s.visualDescription
        ∧ s2.designNote = s.designNote ∧ s2.visualStyle = s.visualStyle) := by
  rcases h with rfl | ⟨s, r, hg, rfl, hfields⟩
  · refine ⟨rfl, rfl, fun j _ => rfl, fun s s2 h1 h2 => ?_⟩
    rw [h1] at h2
    cases h2
    exact ⟨rfl, rfl, rfl, rfl, rfl, rfl, rfl⟩
  · have hidx : index < lp.screens.length := by
      by_contra hc
      rw [List.getElem?_eq_none (Nat.le_of_not_lt hc)] at hg
      cases hg
    refine ⟨rfl, by simp [handleUpdateScreen], ?_, ?_⟩
    · intro j hj
      simpa [handleUpdateScreen] using List.getElem?_set_ne (Ne.symm hj) (a := r) (l := lp.screens)
    · intro s' s2 h1 h2
      rw [hg] at h1
      cases h1
      rw [show (handleUpdateScreen lp index r).screens[index]? = some r from
        List.getElem?_set_self hidx] at h2
      cases h2
      exact hfields

/-- C9: undo and redo modify only the target slide's designSpec, imageData,
history and redoHistory: the slide set's concept, its length, every other
slide, and the target slide's order, type, title, mainCopy,
visualDescription, designNote and visualStyle are unchanged. -/
theorem undoRedo_frame :
    ∀ (lp : SwipeLP) (index t : Nat),
      ((handleUndoVisual lp index t).concept = lp.concept
        ∧ (handleUndoVisual lp index t).screens.length = lp.screens.length
        ∧ (∀ j, j ≠ index →
            (handleUndoVisual lp index t).screens[j]? = lp.screens[j]?)
        ∧ (∀ s s2, lp.screens[index]? = some s →
            (handleUndoVisual lp index t).screens[index]? = some s2 →
            s2.order = s.order ∧ s2.type = s.type ∧ s2.title = s.title
            ∧ s2.mainCopy = s.mainCopy ∧ s2.visualDescription = s.visualDescription
            ∧ s2.designNote = s.designNote ∧ s2.visualStyle = s.visualStyle))
      ∧ ((handleRedoVisual lp index t).concept = lp.concept
        ∧ (handleRedoVisual lp index t).screens.length = lp.screens.length
        ∧ (∀ j, j ≠ index →
            (handleRedoVisual lp index t).screens[j]? = lp.screens[j]?)
        ∧ (∀ s s2, lp.screens[index]? = some s →
            (handleRedoVisual lp index t).screens[index]? = some s2 →
            s2.order = s.order ∧ s2.type = s.type ∧ s2.title = s.title
            ∧ s2.mainCopy = s.mainCopy ∧ s2.visualDescription = s.visualDescription
            ∧ s2.designNote = s.designNote ∧ s2.visualStyle = s.visualStyle)) := by
  intro lp index t
  exact ⟨frame_of_shape lp index _ (handleUndoVisual_shape lp index t),
    frame_of_shape lp index _ (handleRedoVisual_shape lp index t)⟩

/-- C9 (witness): the frame property evaluated on a concrete slide set:
undo leaves the concept and the non-target slide's lookup unchanged, and the
target slide keeps its title after an effective undo. -/
theorem undoRedo_frame_witness :
    (handleUndoVisual wLP 0 7).concept = wLP.concept
    ∧ ((0 : Nat) ≠ 1 ∧ (handleUndoVisual wLP 1 7).screens[0]? = wLP.screens[0]?)
    ∧ ((handleUndoVisual wLP 0 7).screens[0]?).map (fun s2 => s2.title)
        = some wScreen.title := by
  refine ⟨(undoRedo_frame wLP 0 7).1.1, ⟨by decide, (undoRedo_frame wLP 1 7).1.2.2.1 0 (by decide)⟩, ?_⟩
  have h := (undoRedo_frame wLP 0 7).1.2.2.2 wScreen
  cases hg : (handleUndoVisual wLP 0 7).screens[0]? with
  | none =>
    exact absurd hg (by decide)
  | some s2 =>
    have := (h s2 rfl hg).2.2.1
    simp [this]

/-! ## Retry policy (src/services/geminiService.ts lines 11-37) -/

/-- A thrown JavaScript error as inspected by `retryWithBackoff`:
`error.message` and the optional numeric `error.status`. -/
structure JsError where
  message : String
  status : Option Nat
  deriving DecidableEq, Repr

/-- Does `needle` occur as a contiguous sublist of `haystack`? -/
def listIncludes (haystack needle : List Char) : Bool :=
  match haystack with
  | [] => needle.isEmpty
  | _ :: t => needle.isPrefixOf haystack || listIncludes t needle

/-- JavaScript `haystack.includes(needle)`. -/
def strIncludes (haystack needle : String) : Bool :=
  listIncludes haystack.data needle.data

/-- The retryable classification of geminiService.ts lines 23-25:
`isRateLimit || isServerOverload` (429 / quota / 503 signals). -/
def isRetryableError (e : JsError) : Bool :=
  let isRateLimit :=
    strIncludes e.message "429" || e.status == some 429 || strIncludes e.message "quota"
  let isServerOverload := strIncludes e.message "503" || e.status == some 503
  isRateLimit || isServerOverload

/-- The `for` loop of `retryWithBackoff` at iteration `i` with the current
delay.  The loop guard `i < retries` is carried as the structurally
decreasing count `remaining` of iterations left (`remaining = retries - i`
throughout; the initial call passes `remaining = retries`, `i = 0`).  The
result carries the outcome, the total number of attempts made (`operation`
invocations), and the list of slept delays, in order.  The `operation`
oracle maps the attempt number to the call's outcome. -/
def retryLoop {α : Type} (operation : Nat → Except JsError α) (retries factor : Nat) :
    Nat → Nat → Nat → Except JsError α × Nat × List Nat
  | 0, i, _currentDelay =>
    (Except.error { message := "Max retries exceeded", status := none }, i, [])
  | remaining + 1, i, currentDelay =>
    match operation i with
    | Except.ok v => (Except.ok v, i + 1, [])
    | Except.error e =>
      if isRetryableError e ∧ i < retries - 1 then
        let rest := retryLoop operation retries factor remaining (i + 1) (currentDelay * factor)
        (rest.1, rest.2.1, currentDelay :: rest.2.2)
      else (Except.error e, i + 1, [])

/-- `retryWithBackoff` (geminiService.ts 11-37).  The TypeScript defaults are
`retries = 3`, `initialDelay = 2000`, `factor = 2`; they are passed
explicitly here. -/
def retryWithBackoff {α : Type} (operation : Nat → Except JsError α)
    (retries initialDelay factor : Nat) : Except JsError α × Nat × List Nat :=
  retryLoop operation retries factor retries 0 initialDelay

theorem delays_shift (delay factor n : Nat) :
    delay :: (List.range n).map (fun j => delay * factor * factor ^ j)
      = (List.range (n + 1)).map (fun j => delay * factor ^ j) := by
  rw [List.range_succ_eq_map, List.map_cons, List.map_map]
  simp only [pow_zero, mul_one]
  refine congrArg (List.cons delay) (List.map_congr_left fun a _ => ?_)
  simp only [Function.comp_apply]
  rw [pow_succ]
  ring

theorem retryLoop_succeeds {α : Type} (op : Nat → Except JsError α)
    (retries factor : Nat) (v : α) :
    ∀ (k remaining i delay : Nat), remaining + i = retries → i + k < retries →
      (∀ m, m < k → ∃ e, op (i + m) = Except.error e ∧ isRetryableError e = true) →
      op (i + k) = Except.ok v →
      retryLoop op retries factor remaining i delay
        = (Except.ok v, i + k + 1, (List.range k).map (fun j => delay * factor ^ j)) := by
  intro k
  induction k with
  | zero =>
    intro remaining i delay hrem hlt herr hok
    have hok' : op i = Except.ok v := by simpa using hok
    obtain ⟨r, rfl⟩ : ∃ r, remaining = r + 1 := ⟨retries - i - 1, by omega⟩
    simp only [retryLoop, hok']
    simp
  | succ k ih =>
    intro remaining i delay hrem hlt herr hok
    obtain ⟨e, he, hre⟩ := herr 0 (Nat.succ_pos k)
    have he' : op i = Except.error e := by simpa using he
    obtain ⟨r, rfl⟩ : ∃ r, remaining = r + 1 := ⟨retries - i - 1, by omega⟩
    simp only [retryLoop, he']
    rw [if_pos ⟨hre, show i < retries - 1 from by omega⟩]
    have hrec := ih r (i + 1) (delay * factor) (by omega) (by omega)
      (fun m hm => by
        obtain ⟨e2, h2, hr2⟩ := herr (m + 1) (by omega)
        exact ⟨e2, by rw [show i + 1 + m = i + (m + 1) from by omega]; exact h2, hr2⟩)
      (by rw [show i + 1 + k = i + (k + 1) from by omega]; exact hok)
    simp only [hrec]
    rw [delays_shift]
    rw [show i + 1 + k + 1 = i + (k + 1) + 1 from by omega]

theorem retryLoop_exhausts {α : Type} (op : Nat → Except JsError α)
    (retries factor : Nat) (es : Nat → JsError)
    (hall : ∀ i, i < retries → op i = Except.error (es i) ∧ isRetryableError (es i) = true) :
    ∀ (n remaining i delay : Nat), remaining + i = retries → i + n + 1 = retries →
      retryLoop op retries factor remaining i delay
        = (Except.error (es (retries - 1)), retries,
           (List.range n).map (fun j => delay * factor ^ j)) := by
  intro n
  induction n with
  | zero =>
    intro remaining i delay hrem h
    obtain ⟨he, _⟩ := hall i (by omega)
    obtain ⟨r, rfl⟩ : ∃ r, remaining = r + 1 := ⟨retries - i - 1, by omega⟩
    simp only [retryLoop, he]
    rw [if_neg (fun hc => absurd hc.2 (by omega))]
    rw [show i + 1 = retries from by omega]
    rw [show i = retries - 1 from by omega]
    simp
  | succ n ih =>
    intro remaining i delay hrem h
    obtain ⟨he, hre⟩ := hall i (by omega)
    obtain ⟨r, rfl⟩ : ∃ r, remaining = r + 1 := ⟨retries - i - 1, by omega⟩
    simp only [retryLoop, he]
    rw [if_pos ⟨hre, show i < retries - 1 from by omega⟩]
    simp only [ih r (i + 1) (delay * factor) (by omega) (by omega)]
    rw [delays_shift]

theorem retryLoop_const_error {α : Type} (op : Nat → Except JsError α) (e : JsError)
    (retries factor : Nat) (hop : ∀ n, op n = Except.error e) :
    ∀ (remaining i delay : Nat), remaining + i = retries → 0 < remaining →
      (retryLoop op retries factor remaining i delay).1 = Except.error e := by
  intro remaining
  induction remaining with
  | zero => intro i delay _ h; omega
  | succ r ih =>
    intro i delay hrem _
    simp only [retryLoop, hop i]
    by_cases hc : isRetryableError e = true ∧ i < retries - 1
    · rw [if_pos hc]
      exact ih (i + 1) (delay * factor) (by omega) (by omega)
    · rw [if_neg hc]

/-! ## Claim C2: retryable failures back off then succeed -/

/-- C2: if the operation fails with a retryable classification on the first
`k` attempts and succeeds on attempt `k`, with `k < maxAttempts` (`retries`),
then retryWithBackoff sleeps `initialDelay, initialDelay*factor, ...` for the
`k` failed attempts, returns the success value, and invokes the operation
`k + 1 ≤ maxAttempts` times. -/
theorem retryWithBackoff_backoff_then_success :
    ∀ {α : Type} (op : Nat → Except JsError α) (k : Nat) (v : α)
      (retries initialDelay factor : Nat),
      k < retries →
      (∀ m, m < k → ∃ e, op m = Except.error e ∧ isRetryableError e = true) →
      op k = Except.ok v →
      retryWithBackoff op retries initialDelay factor
        = (Except.ok v, k + 1, (List.range k).map (fun j => initialDelay * factor ^ j))
      ∧ k + 1 ≤ retries := by
  intro α op k v retries initialDelay factor hk herr hok
  refine ⟨?_, by omega⟩
  have h := retryLoop_succeeds op retries factor v k retries 0 initialDelay
    (by omega) (by omega) (fun m hm => by simpa using herr m hm) (by simpa using hok)
  simpa [retryWithBackoff] using h

/-- An operation that fails retryably (429) twice, then succeeds. -/
def retryOkOp : Nat → Except JsError Nat := fun i =>
  if i < 2 then Except.error { message := "429 rate limited", status := some 429 }
  else Except.ok 42

/-- C2 (witness): with the TypeScript defaults (3 attempts, 2000 ms, factor
2), an operation failing retryably twice then succeeding yields the success
value after sleeping 2000 ms and 4000 ms, in 3 attempts. -/
theorem retryWithBackoff_backoff_then_success_witness :
    retryWithBackoff retryOkOp 3 2000 2 = (Except.ok 42, 3, [2000, 4000]) := by
  have h := (retryWithBackoff_backoff_then_success retryOkOp 2 42 3 2000 2
    (by omega)
    (fun m hm => by
      interval_cases m <;>
        exact ⟨{ message := "429 rate limited", status := some 429 }, rfl, by decide⟩)
    rfl).1
  rw [h]
  norm_num [List.range_succ]

/-! ## Claim C3: terminal short-circuit and exhaustion propagate unchanged -/

/-- C3: (a) a terminal-classified failure on the first attempt causes exactly
one attempt, no sleeps, and the error is propagated unchanged; (b) when every
attempt fails retryably, the loop makes exactly `retries` attempts, sleeps
the first `retries - 1` backoff delays, and propagates the last raised error
unchanged. -/
theorem retryWithBackoff_terminal_and_exhaustion :
    ∀ {α : Type} (op : Nat → Except JsError α) (retries initialDelay factor : Nat),
      0 < retries →
      (∀ e, op 0 = Except.error e → isRetryableError e = false →
        retryWithBackoff op retries initialDelay factor = (Except.error e, 1, []))
      ∧ (∀ es : Nat → JsError,
          (∀ i, i < retries → op i = Except.error (es i) ∧ isRetryableError (es i) = true) →
          retryWithBackoff op retries initialDelay factor
            = (Except.error (es (retries - 1)), retries,
               (List.range (retries - 1)).map (fun j => initialDelay * factor ^ j))) := by
  intro α op retries initialDelay factor hpos
  constructor
  · intro e he hterm
    rw [retryWithBackoff]
    obtain ⟨r, rfl⟩ : ∃ r, retries = r + 1 := ⟨retries - 1, by omega⟩
    simp only [retryLoop, he]
    rw [if_neg (fun hc => by rw [hterm] at hc; exact absurd hc.1 (by simp))]
  · intro es hall
    exact retryLoop_exhausts op retries factor es hall
      (retries - 1) retries 0 initialDelay (by omega) (by omega)

/-- An operation that always fails terminally (a 401 auth failure). -/
def terminalOp : Nat → Except JsError Nat := fun _ =>
  Except.error { message := "401 unauthorized", status := some 401 }

/-- An operation that always fails retryably (quota exhaustion). -/
def quotaOp : Nat → Except JsError Nat := fun _ =>
  Except.error { message := "quota exceeded", status := some 429 }

/-- C3 (witness): with the defaults, a terminal 401 error is propagated after
exactly one attempt with no sleep, and an always-retryable quota error is
propagated unchanged after 3 attempts with sleeps 2000 ms and 4000 ms. -/
theorem retryWithBackoff_terminal_and_exhaustion_witness :
    retryWithBackoff terminalOp 3 2000 2
      = (Except.error { message := "401 unauthorized", status := some 401 }, 1, [])
    ∧ retryWithBackoff quotaOp 3 2000 2
      = (Except.error { message := "quota exceeded", status := some 429 }, 3, [2000, 4000]) := by
  constructor
  · exact (retryWithBackoff_terminal_and_exhaustion terminalOp 3 2000 2 (by omega)).1
      { message := "401 unauthorized", status := some 401 } rfl (by decide)
  · have hq : isRetryableError { message := "quota exceeded", status := some 429 } = true := by
      decide
    have h := (retryWithBackoff_terminal_and_exhaustion quotaOp 3 2000 2 (by omega)).2
      (fun _ => { message := "quota exceeded", status := some 429 })
      (fun i _ => ⟨rfl, hq⟩)
    rw [h]
    norm_num [List.range_succ]

/-! ## Image generation (src/services/geminiService.ts lines 575-719) -/

/-- The `source` union of `UploadedFile` in src/types.ts. -/
inductive FileSource where
  | localFile
  | drive
  | paste
  | url
  deriving DecidableEq, Repr

/-- The `assetType` union of `UploadedFile` in src/types.ts. -/
inductive AssetType where
  | product
  | character
  | voice
  | analysisMaterial
  | designReference
  | other
  deriving DecidableEq, Repr

/-- `UploadedFile` from src/types.ts. -/
structure UploadedFile where
  id : String
  name : String
  content : String
  source : FileSource
  size : Nat
  mimeType : Option String
  data : Option String
  assetType : Option AssetType
  deriving DecidableEq, Repr

/-- The filter `f.mimeType?.startsWith('image/')` (geminiService.ts 588). -/
def isImageFile (f : UploadedFile) : Bool :=
  match f.mimeType with
  | some m => m.startsWith "image/"
  | none => false

/-- One part of the provider's image response: `part.inlineData?.data`
(geminiService.ts 707-711).  The prompt text built from the request's
fields is presentation only and is carried opaquely by the request. -/
structure GenPart where
  inlineDataData : Option String
  deriving DecidableEq, Repr

/-- The semantically relevant content of one `generateContent` image call:
the screen (with its design spec), the image files attached as parts, and
the resolved manga-style flag.  The literal prompt string is a function of
exactly these fields. -/
structure RenderRequest where
  screen : SwipeScreen
  imageFiles : List UploadedFile
  isMangaStyle : Bool
  deriving DecidableEq, Repr

/-- Request construction in `generateSwipeScreenImage` (geminiService.ts
587-691): filter image files; `isMangaStyle = screen.visualStyle === 'manga'
|| (!screen.visualStyle && isMangaMode)`. -/
def mkRenderRequest (screen : SwipeScreen) (files : List UploadedFile)
    (isMangaMode : Bool) : RenderRequest :=
  { screen := screen
    imageFiles := files.filter isImageFile
    isMangaStyle :=
      match screen.visualStyle with
      | some VisualStyle.manga => true
      | some VisualStyle.standard => false
      | none => isMangaMode }

/-- The extraction loop over `response.candidates?.[0]?.content?.parts`
(geminiService.ts 707-711): return the first part whose `inlineData.data`
is present and truthy (non-empty). -/
def extractInlineImage (parts : List GenPart) : Option String :=
  parts.findSome? fun p =>
    match p.inlineDataData with
    | some d => if d = "" then none else some d
    | none => none

/-- `generateSwipeScreenImage` (geminiService.ts 575-719) over a provider
oracle (mapping request and attempt number to an outcome).  Returns the
outcome together with the number of provider invocations actually made.
The missing-spec check (line 585) happens before any provider call. -/
def generateSwipeScreenImage
    (provider : RenderRequest → Nat → Except JsError (List GenPart))
    (screen : SwipeScreen) (files : List UploadedFile) (isMangaMode : Bool) :
    Except JsError String × Nat :=
  match screen.designSpec with
  | none => (Except.error { message := "Design Spec is missing", status := none }, 0)
  | some _ =>
    let req := mkRenderRequest screen files isMangaMode
    let result := retryWithBackoff (fun i => provider req i) 3 2000 2
    match result.1 with
    | Except.error e => (Except.error e, result.2.1)
    | Except.ok parts =>
      match extractInlineImage parts with
      | some d => (Except.ok d, result.2.1)
      | none =>
        (Except.error { message := "画像データが生成されませんでした。", status := none },
         result.2.1)

/-! ## Claim C10: missing design spec fails before any provider call -/

/-- C10: image generation on a slide without a designSpec raises the
"Design Spec is missing" error with zero provider invocations, for every
provider oracle, file list and manga-mode flag. -/
theorem generateSwipeScreenImage_missing_spec :
    ∀ (provider : RenderRequest → Nat → Except JsError (List GenPart))
      (screen : SwipeScreen) (files : List UploadedFile) (isMangaMode : Bool),
      screen.designSpec = none →
      generateSwipeScreenImage provider screen files isMangaMode
        = (Except.error { message := "Design Spec is missing", status := none }, 0) := by
  intro provider screen files isMangaMode h
  simp [generateSwipeScreenImage, h]

/-- A slide with neither design spec nor image. -/
def bareScreen : SwipeScreen :=
  { order := 9, type := ScreenType.cta, title := "t9", mainCopy := "m9"
    visualDescription := "v9", designNote := "d9"
    designSpec := none, imageData := none
    history := none, redoHistory := none, visualStyle := none }

/-- A provider that always answers with one inline image "IMG". -/
def okProvider : RenderRequest → Nat → Except JsError (List GenPart) :=
  fun _ _ => Except.ok [{ inlineDataData := some "IMG" }]

/-- C10 (witness): on a concrete spec-less slide, even a provider that would
succeed is never invoked and the missing-spec error is raised. -/
theorem generateSwipeScreenImage_missing_spec_witness :
    generateSwipeScreenImage okProvider bareScreen [] false
      = (Except.error { message := "Design Spec is missing", status := none }, 0) :=
  generateSwipeScreenImage_missing_spec okProvider bareScreen [] false rfl

/-! ## Sequential visual phase (src/App.tsx lines 129-204) -/

/-- A provider invocation observed during the visual phase, tagged with the
0-based slide index it was made for.  The visual phase of the source only
ever issues image-render calls; the `design` tag exists so that the absence
of design-generation calls is expressible. -/
inductive ProviderCall where
  | design (slideIndex : Nat)
  | render (slideIndex : Nat)
  deriving DecidableEq, Repr

/-- The hardcoded fallback design spec of src/App.tsx 166-171, attached when
a slide reaches the visual phase without a designSpec.  `isMangaMode` models
the removed manga-mode flag referenced there (pinned to `false` by the
surviving call site, src/App.tsx line 119). -/
def defaultDesignSpec (isMangaMode : Bool) : DesignSpec :=
  { layoutBlueprint :=
      if isMangaMode then "1列4行の縦積み（4コマ漫画）" else "フルスクリーン・オーバーレイ"
    visualAssetInstruction := "AI生成"
    typographyInstruction := "標準"
    colorPalette := "#FFFFFF" }

/-- The per-slide error message set by src/App.tsx line 195. -/
def slideErrorMessage (i : Nat) (e : JsError) : String :=
  "スライド " ++ toString (i + 1)
    ++ " の生成中にエラーが発生しましたが、処理を継続します: " ++ e.message

/-- One iteration of the visual-phase loop (src/App.tsx 159-196) for slide
`i`: skip entirely when an image is already present; otherwise attach the
fallback design spec if none is present, then render through
`generateSwipeScreenImage`; on failure record the per-slide error message
and keep going.  Returns the updated slide, the error message (if any), and
the provider calls made. -/
def visualStep (provider : RenderRequest → Nat → Except JsError (List GenPart))
    (files : List UploadedFile) (isMangaMode : Bool) (i : Nat) (screen : SwipeScreen) :
    SwipeScreen × Option String × List ProviderCall :=
  match screen.imageData with
  | some _ => (screen, none, [])
  | none =>
    let screen1 :=
      match screen.designSpec with
      | some _ => screen
      | none => { screen with designSpec := some (defaultDesignSpec isMangaMode) }
    let gen := generateSwipeScreenImage provider screen1 files isMangaMode
    let calls := List.replicate gen.2 (ProviderCall.render i)
    match gen.1 with
    | Except.ok b => ({ screen1 with imageData := some b }, none, calls)
    | Except.error e => (screen1, some (slideErrorMessage i e), calls)

/-- The sequential `for` loop of src/App.tsx 153-200: slides are processed
strictly in order; a failure overwrites the single error state and the loop
continues.  Returns the final slides, the last error state, and the
concatenated provider-call trace. -/
def visualLoop (provider : RenderRequest → Nat → Except JsError (List GenPart))
    (files : List UploadedFile) (isMangaMode : Bool) :
    Nat → List SwipeScreen → Option String →
      List SwipeScreen × Option String × List ProviderCall
  | _, [], err => ([], err, [])
  | i, s :: rest, err =>
    let step := visualStep provider files isMangaMode i s
    let err1 :=
      match step.2.1 with
      | some m => some m
      | none => err
    let restResult := visualLoop provider files isMangaMode (i + 1) rest err1
    (step.1 :: restResult.1, restResult.2.1, step.2.2 ++ restResult.2.2)

/-- The observable outcome of the visual phase: the slide set, the final
app state, the error state, and the trace of provider calls. -/
structure VisualPhaseResult where
  lp : SwipeLP
  appState : AppState
  error : Option String
  trace : List ProviderCall
  deriving DecidableEq, Repr

/-- `handleStartVisualPhase` (src/App.tsx 129-204) after its API-key and
slide-set guards: run the sequential loop over all slides starting from a
cleared error state, then unconditionally set `VISUALS_COMPLETE`
(src/App.tsx 203).  The React slide-set state and the loop's local screens
array alias the same objects in the source and are modelled as one list. -/
def handleStartVisualPhase (provider : RenderRequest → Nat → Except JsError (List GenPart))
    (files : List UploadedFile) (isMangaMode : Bool) (lp : SwipeLP) : VisualPhaseResult :=
  let r := visualLoop provider files isMangaMode 0 lp.screens none
  { lp := { lp with screens := r.1 }
    appState := AppState.VISUALS_COMPLETE
    error := r.2.1
    trace := r.2.2 }

/-! ## Claim C4: resumability of the visual phase -/

/-- A minimal slide with the given order, spec and image. -/
def c4Screen (n : Nat) (spec : Option DesignSpec) (img : Option String) : SwipeScreen :=
  { order := n, type := ScreenType.hook, title := "t", mainCopy := "m"
    visualDescription := "v", designNote := "d"
    designSpec := spec, imageData := img
    history := none, redoHistory := none, visualStyle := none }

/-- Slides 1-3 finished (spec and image), slides 4-5 with neither. -/
def c4LP : SwipeLP :=
  { screens :=
      [c4Screen 1 (some sampleSpecA) (some "img1"),
       c4Screen 2 (some sampleSpecA) (some "img2"),
       c4Screen 3 (some sampleSpecA) (some "img3"),
       c4Screen 4 none none,
       c4Screen 5 none none]
    concept := "c" }

/-- C4 (counterexample): the claim that a slide lacking a DesignSpec gets one
"by calling composeDesign through the Retry Policy and Sanitizer" is false.
Restarting over slides 1-3 finished / 4-5 empty, the trace contains only the
two image-render calls (for slides 4 and 5, in that order) and no design
call at all, and slide 4 ends with the hardcoded fallback design spec. -/
theorem visualPhase_resumability_counterexample :
    (handleStartVisualPhase okProvider [] false c4LP).trace
        = [ProviderCall.render 3, ProviderCall.render 4]
    ∧ ((handleStartVisualPhase okProvider [] false c4LP).lp.screens[3]?).map
          (fun s => s.designSpec)
        = some (some (defaultDesignSpec false)) := by
  constructor <;> rfl

/-- A screen with the fallback design spec attached (manga mode off). -/
def specFilled (s : SwipeScreen) : SwipeScreen :=
  { s with designSpec := some (defaultDesignSpec false) }

/-- The screen produced by a successful render of `specFilled s`, where the
provider answers request `req` with the inline image `img req`. -/
def renderedScreen (s : SwipeScreen) (files : List UploadedFile)
    (img : RenderRequest → String) : SwipeScreen :=
  { specFilled s with imageData := some (img (mkRenderRequest (specFilled s) files false)) }

/-- C4 (amended): in the visual phase, a slide that already has an ImageBlob
is skipped entirely (no provider call, slide unchanged); a slide lacking a
DesignSpec has the hardcoded fallback spec attached locally, with no design
provider call, before rendering; hence restarting over a slide set where
slides 1-3 already have DesignSpec+ImageBlob and slides 4-5 have neither
issues provider calls only for slides 4-5, in that order, and ends in
VISUALS_COMPLETE with no error. -/
theorem visualPhase_resumability :
    ∀ (provider : RenderRequest → Nat → Except JsError (List GenPart))
      (files : List UploadedFile) (a b c d e : SwipeScreen)
      (ia ib ic conceptStr : String) (img : RenderRequest → String),
      a.imageData = some ia → b.imageData = some ib → c.imageData = some ic →
      d.imageData = none → d.designSpec = none →
      e.imageData = none → e.designSpec = none →
      (∀ req n, provider req n = Except.ok [{ inlineDataData := some (img req) }]) →
      (∀ req, img req ≠ "") →
      (handleStartVisualPhase provider files false
          { screens := [a, b, c, d, e], concept := conceptStr }).trace
          = [ProviderCall.render 3, ProviderCall.render 4]
      ∧ (handleStartVisualPhase provider files false
          { screens := [a, b, c, d, e], concept := conceptStr }).appState
          = AppState.VISUALS_COMPLETE
      ∧ (handleStartVisualPhase provider files false
          { screens := [a, b, c, d, e], concept := conceptStr }).error = none
      ∧ (handleStartVisualPhase provider files false
          { screens := [a, b, c, d, e], concept := conceptStr }).lp.screens
          = [a, b, c, renderedScreen d files img, renderedScreen e files img] := by
  intro provider files a b c d e ia ib ic conceptStr img ha hb hc hd hd2 he he2 hprov hne
  have hstep : ∀ i s, s.imageData = none → s.designSpec = none →
      visualStep provider files false i s
        = (renderedScreen s files img, none, [ProviderCall.render i]) := by
    intro i s h1 h2
    rw [visualStep]
    simp only [h1, h2]
    rw [generateSwipeScreenImage]
    simp only [retryWithBackoff, retryLoop, hprov]
    simp [extractInlineImage, hne, renderedScreen, specFilled, h1]
  have hskip : ∀ i s (is : String), s.imageData = some is →
      visualStep provider files false i s = (s, none, []) := by
    intro i s is h1
    rw [visualStep]
    simp only [h1]
  rw [handleStartVisualPhase]
  simp only [visualLoop, hskip 0 a ia ha, hskip 1 b ib hb, hskip 2 c ic hc,
    hstep 3 d hd hd2, hstep 4 e he he2]
  simp

/-- C4 (witness): the amended statement on the concrete five-slide set with
the always-succeeding provider. -/
theorem imgNE : ("IMG" : String) ≠ "" := by decide

theorem visualPhase_resumability_witness :
    (handleStartVisualPhase okProvider [] false c4LP).trace
        = [ProviderCall.render 3, ProviderCall.render 4]
    ∧ (handleStartVisualPhase okProvider [] false c4LP).appState
        = AppState.VISUALS_COMPLETE :=
  have h := visualPhase_resumability okProvider []
    (c4Screen 1 (some sampleSpecA) (some "img1"))
    (c4Screen 2 (some sampleSpecA) (some "img2"))
    (c4Screen 3 (some sampleSpecA) (some "img3"))
    (c4Screen 4 none none) (c4Screen 5 none none)
    "img1" "img2" "img3" "c" (fun _ => "IMG")
    rfl rfl rfl rfl rfl rfl rfl (fun _ _ => rfl) (fun _ h => imgNE h)
  ⟨h.1, h.2.1⟩

/-! ## Claim C5: a slide's permanent failure never aborts the run -/

/-- C5: when the provider permanently fails for slide 2's render request
(with any error) and succeeds for slides 1 and 3, the visual phase records
the per-slide error for slide 2, still populates the other slides' images,
leaves slide 2's image absent, and unconditionally ends in
VISUALS_COMPLETE. -/
theorem visualPhase_partial_failure :
    ∀ (provider : RenderRequest → Nat → Except JsError (List GenPart))
      (files : List UploadedFile) (a b c : SwipeScreen) (sa sb sc : DesignSpec)
      (conceptStr : String) (e : JsError) (img : RenderRequest → String),
      a.imageData = none → a.designSpec = some sa →
      b.imageData = none → b.designSpec = some sb →
      c.imageData = none → c.designSpec = some sc →
      (∀ n, provider (mkRenderRequest b files false) n = Except.error e) →
      (∀ n, provider (mkRenderRequest a files false) n
        = Except.ok [{ inlineDataData := some (img (mkRenderRequest a files false)) }]) →
      (∀ n, provider (mkRenderRequest c files false) n
        = Except.ok [{ inlineDataData := some (img (mkRenderRequest c files false)) }]) →
      (∀ req, img req ≠ "") →
      (handleStartVisualPhase provider files false
          { screens := [a, b, c], concept := conceptStr }).appState
          = AppState.VISUALS_COMPLETE
      ∧ ((handleStartVisualPhase provider files false
          { screens := [a, b, c], concept := conceptStr }).lp.screens[0]?).map
            (fun s => s.imageData)
          = some (some (img (mkRenderRequest a files false)))
      ∧ ((handleStartVisualPhase provider files false
          { screens := [a, b, c], concept := conceptStr }).lp.screens[2]?).map
            (fun s => s.imageData)
          = some (some (img (mkRenderRequest c files false)))
      ∧ ((handleStartVisualPhase provider files false
          { screens := [a, b, c], concept := conceptStr }).lp.screens[1]?).map
            (fun s => s.imageData)
          = some none
      ∧ (handleStartVisualPhase provider files false
          { screens := [a, b, c], concept := conceptStr }).error
          = some (slideErrorMessage 1 e) := by
  intro provider files a b c sa sb sc conceptStr e img
  intro haimg haspec hbimg hbspec hcimg hcspec hfb hpa hpc hne
  have hok_step : ∀ (i : Nat) (s : SwipeScreen) (sp : DesignSpec),
      s.imageData = none → s.designSpec = some sp →
      (∀ n, provider (mkRenderRequest s files false) n
        = Except.ok [{ inlineDataData := some (img (mkRenderRequest s files false)) }]) →
      visualStep provider files false i s
        = ({ s with imageData := some (img (mkRenderRequest s files false)) },
           none, [ProviderCall.render i]) := by
    intro i s sp h1 h2 hp
    rw [visualStep]
    simp only [h1, h2]
    rw [generateSwipeScreenImage]
    simp only [h2, retryWithBackoff, retryLoop, hp]
    simp [extractInlineImage, hne]
  obtain ⟨cs, hbstep⟩ : ∃ cs, visualStep provider files false 1 b
      = (b, some (slideErrorMessage 1 e), cs) := by
    have h1 : (generateSwipeScreenImage provider b files false).1 = Except.error e := by
      rw [generateSwipeScreenImage]
      simp only [hbspec]
      have h2 := retryLoop_const_error
        (fun i => provider (mkRenderRequest b files false) i) e 3 2
        (fun n => hfb n) 3 0 2000 rfl (by omega)
      simp only [retryWithBackoff, h2]
    rw [visualStep]
    simp only [hbimg, hbspec, h1]
    exact ⟨_, rfl⟩
  rw [handleStartVisualPhase]
  simp only [visualLoop, hok_step 0 a sa haimg haspec hpa, hbstep,
    hok_step 2 c sc hcimg hcspec hpc]
  simp [hbimg]

/-- A slide with a design spec but no image yet. -/
def c5Screen (n : Nat) : SwipeScreen := c4Screen n (some sampleSpecA) none

def c5LP : SwipeLP :=
  { screens := [c5Screen 1, c5Screen 2, c5Screen 3], concept := "c" }

/-- A provider that always fails terminally for slide order 2 and always
succeeds otherwise. -/
def failProvider : RenderRequest → Nat → Except JsError (List GenPart) :=
  fun req _ =>
    if req.screen.order = 2 then
      Except.error { message := "permission denied", status := none }
    else Except.ok [{ inlineDataData := some "IMG" }]

/-- C5 (witness): on a concrete three-slide set whose middle slide always
fails, slides 1 and 3 end with images, slide 2 does not, the per-slide error
for slide 2 is recorded, and the run ends in VISUALS_COMPLETE. -/
theorem visualPhase_partial_failure_witness :
    (handleStartVisualPhase failProvider [] false c5LP).appState
        = AppState.VISUALS_COMPLETE
    ∧ ((handleStartVisualPhase failProvider [] false c5LP).lp.screens[0]?).map
          (fun s => s.imageData) = some (some "IMG")
    ∧ ((handleStartVisualPhase failProvider [] false c5LP).lp.screens[2]?).map
          (fun s => s.imageData) = some (some "IMG")
    ∧ ((handleStartVisualPhase failProvider [] false c5LP).lp.screens[1]?).map
          (fun s => s.imageData) = some none
    ∧ (handleStartVisualPhase failProvider [] false c5LP).error
        = some (slideErrorMessage 1 { message := "permission denied", status := none }) :=
  visualPhase_partial_failure failProvider [] (c5Screen 1) (c5Screen 2) (c5Screen 3)
    sampleSpecA sampleSpecA sampleSpecA "c"
    { message := "permission denied", status := none } (fun _ => "IMG")
    rfl rfl rfl rfl rfl rfl (fun _ => rfl) (fun _ => rfl) (fun _ => rfl)
    (fun _ h => imgNE h)

/-! ## Analysis handler (src/App.tsx lines 90-107) -/

/-- The component state touched by `handleAnalyze`: the phase enum, the
error banner and the analysis result.  `π` is the (opaque) profile type. -/
structure AppModel (π : Type) where
  appState : AppState
  error : Option String
  productProfile : Option π
  deriving DecidableEq, Repr

/-- `handleAnalyze` (src/App.tsx 90-107).  `analysisResult` is the awaited
outcome of `analyzeProductContext` (after its internal retry handling).
Returns the state set before awaiting (ANALYZING, error and profile
cleared) and the final state: on success ANALYSIS_COMPLETE with the
profile; on failure the error message (`err.message ||` fallback) with the
state set back to IDLE.  With no files the handler returns immediately. -/
def handleAnalyze {π : Type} (st : AppModel π) (files : List UploadedFile)
    (analysisResult : Except JsError π) : AppModel π × Option (AppModel π) :=
  if files.isEmpty then (st, none)
  else
    let analyzing : AppModel π :=
      { appState := AppState.ANALYZING, error := none, productProfile := none }
    match analysisResult with
    | Except.ok r =>
      (analyzing,
       some { analyzing with
         productProfile := some r
         appState := AppState.ANALYSIS_COMPLETE })
    | Except.error e =>
      (analyzing,
       some { analyzing with
         error := some (if e.message = ""
           then "分析に失敗しました。APIキーを確認してください。" else e.message)
         appState := AppState.IDLE })

/-! ## Claim C8: state after a failed analysis -/

def sampleFile : UploadedFile :=
  { id := "1", name := "brief.txt", content := "text", source := FileSource.localFile
    size := 4, mimeType := none, data := none, assetType := none }

def analysisFailure : JsError := { message := "invalid api key", status := some 400 }

def idleModel : AppModel String :=
  { appState := AppState.IDLE, error := none, productProfile := none }

/-- C8 (counterexample): when analysis fails, the state machine does not
move to the Failed state (`AppState.ERROR`): it records the failure reason
and goes straight back to IDLE, from which the user can retry without any
explicit reset.  `AppState.ERROR` is never entered by the handler. -/
theorem analyzeFailure_counterexample :
    (handleAnalyze idleModel [sampleFile] (Except.error analysisFailure)).2
      = some { appState := AppState.IDLE, error := some "invalid api key"
               productProfile := none }
    ∧ AppState.IDLE ≠ AppState.ERROR := by
  exact ⟨rfl, by decide⟩

/-- C8 (amended): with a non-empty file list, a failed analysis first sets
ANALYZING (clearing error and profile), then attaches the failure reason as
the error message (falling back to a fixed message when empty) and returns
the state machine to IDLE — not to a Failed state, and with no reset
required before retrying. -/
theorem analyzeFailure_to_idle :
    ∀ {π : Type} (st : AppModel π) (files : List UploadedFile) (e : JsError),
      files ≠ [] →
      (handleAnalyze st files (Except.error e)).1
        = { appState := AppState.ANALYZING, error := none, productProfile := none }
      ∧ (handleAnalyze st files (Except.error e)).2
        = some { appState := AppState.IDLE
                 error := some (if e.message = ""
                   then "分析に失敗しました。APIキーを確認してください。" else e.message)
                 productProfile := none } := by
  intro π st files e hf
  cases files with
  | nil => exact absurd rfl hf
  | cons f t => exact ⟨rfl, rfl⟩

/-- C8 (witness): the amended behaviour at the concrete failing input. -/
theorem analyzeFailure_to_idle_witness :
    (handleAnalyze idleModel [sampleFile] (Except.error analysisFailure)).2
      = some { appState := AppState.IDLE, error := some "invalid api key"
               productProfile := none } := by
  have h := (analyzeFailure_to_idle idleModel [sampleFile] analysisFailure
    (by simp)).2
  simpa [analysisFailure] using h

/-! ## Copy hygiene (src/services/geminiService.ts lines 748-763) -/

/-- Is the next character a line end (`(?=$|\n)` lookahead): true at end of
input or before a newline. -/
def nextIsLineEnd : List Char → Bool
  | [] => true
  | y :: _ => y = '\n'

/-- One global-replace pass `text.replace(/c(?=$|\n)/g, '')`: delete every
occurrence of `c` whose (original) successor is a newline or the end of the
string.  The lookahead does not consume, so matches are decided against the
original string, which the structural recursion reproduces exactly. -/
def stripAtLineEnd (c : Char) : List Char → List Char
  | [] => []
  | x :: t =>
    if x = c ∧ nextIsLineEnd t = true then stripAtLineEnd c t
    else x :: stripAtLineEnd c t

/-- `sanitizeCopy` (geminiService.ts 753-763): the `!text` guard, then the
`。` pass followed by the `、` pass. -/
def sanitizeCopy (text : String) : String :=
  if text = "" then text
  else String.mk (stripAtLineEnd '、' (stripAtLineEnd '。' text.data))

/-! ## Claim C7: idempotence of the trailing-punctuation stripper -/

/-- C7 (counterexample): the stripper is not idempotent.  Each pass removes
only one trailing `。` per line end (the lookahead blocks a `。` followed by
another `。`), so "。。" loses one character per application. -/
theorem sanitizeCopy_not_idempotent :
    sanitizeCopy "。。" = "。"
    ∧ sanitizeCopy (sanitizeCopy "。。") = ""
    ∧ sanitizeCopy (sanitizeCopy "。。") ≠ sanitizeCopy "。。" := by
  refine ⟨by decide, by decide, by decide⟩

/-- A character the stripper may delete. -/
def isStrip (ch : Char) : Bool := ch = '。' || ch = '、'

/-- No two adjacent strippable characters anywhere in the list. -/
def noAdjStrip : List Char → Bool
  | x :: y :: t => (!(isStrip x && isStrip y)) && noAdjStrip (y :: t)
  | _ => true

/-- No occurrence of `c` sits at a line end (end of input or before a
newline). -/
def noEndFor (c : Char) : List Char → Bool
  | [] => true
  | [x] => !(x = c)
  | x :: y :: t => (!(x = c) || !(y = '\n')) && noEndFor c (y :: t)

theorem noAdjStrip_tail {x : Char} {t : List Char} (h : noAdjStrip (x :: t) = true) :
    noAdjStrip t = true := by
  cases t with
  | nil => rfl
  | cons y t2 =>
    simp only [noAdjStrip, Bool.and_eq_true] at h
    exact h.2

theorem noAdjStrip_head {x y : Char} {t : List Char}
    (h : noAdjStrip (x :: y :: t) = true) (hx : isStrip x = true) :
    isStrip y = false := by
  simp only [noAdjStrip, Bool.and_eq_true] at h
  have h1 := h.1
  cases hy : isStrip y
  · rfl
  · exfalso
    rw [hx, hy] at h1
    simp at h1

theorem noEndFor_tail {c x : Char} {t : List Char} (h : noEndFor c (x :: t) = true) :
    noEndFor c t = true := by
  cases t with
  | nil => rfl
  | cons y t2 =>
    simp only [noEndFor, Bool.and_eq_true] at h
    exact h.2

theorem strip_keep {c x : Char} {t : List Char}
    (h : ¬(x = c ∧ nextIsLineEnd t = true)) :
    stripAtLineEnd c (x :: t) = x :: stripAtLineEnd c t := by
  rw [stripAtLineEnd, if_neg h]

theorem strip_drop {c x : Char} {t : List Char}
    (h : x = c ∧ nextIsLineEnd t = true) :
    stripAtLineEnd c (x :: t) = stripAtLineEnd c t := by
  rw [stripAtLineEnd, if_pos h]

theorem strip_id_of_noEnd {c : Char} :
    ∀ {l : List Char}, noEndFor c l = true → stripAtLineEnd c l = l := by
  intro l
  induction l with
  | nil => intro _; rfl
  | cons x t ih =>
    intro h
    cases t with
    | nil =>
      have hx : ¬(x = c) := by
        simp only [noEndFor, Bool.not_eq_true', decide_eq_false_iff_not] at h
        exact h
      rw [strip_keep (fun hc => hx hc.1)]
      rfl
    | cons y t2 =>
      have h2 := noEndFor_tail h
      simp only [noEndFor, Bool.and_eq_true, Bool.or_eq_true, Bool.not_eq_true',
        decide_eq_false_iff_not] at h
      have hcond : ¬(x = c ∧ nextIsLineEnd (y :: t2) = true) := by
        rintro ⟨hx, hnl⟩
        rcases h.1 with h1 | h1
        · exact h1 hx
        · exact h1 (by simpa [nextIsLineEnd] using hnl)
      rw [strip_keep hcond, ih h2]

theorem noEnd_strip_self {c : Char} (hc : isStrip c = true) :
    ∀ {l : List Char}, noAdjStrip l = true → noEndFor c (stripAtLineEnd c l) = true := by
  intro l
  induction l with
  | nil => intro _; rfl
  | cons x t ih =>
    intro hadj
    have hadj2 := noAdjStrip_tail hadj
    by_cases hcond : x = c ∧ nextIsLineEnd t = true
    · rw [strip_drop hcond]
      exact ih hadj2
    · rw [strip_keep hcond]
      by_cases hx : x = c
      · have hnl : ¬(nextIsLineEnd t = true) := fun hnl => hcond ⟨hx, hnl⟩
        cases t with
        | nil => exact absurd rfl hnl
        | cons y t2 =>
          have hy_nl : ¬(y = '\n') := fun hy => hnl (by simp [nextIsLineEnd, hy])
          have hy_strip : isStrip y = false := noAdjStrip_head hadj (by rw [hx]; exact hc)
          have hyc : ¬(y = c) := by
            intro hyc
            rw [hyc] at hy_strip
            rw [hc] at hy_strip
            exact Bool.noConfusion hy_strip
          have hkeep2 : stripAtLineEnd c (y :: t2) = y :: stripAtLineEnd c t2 :=
            strip_keep (fun hcc => hyc hcc.1)
          rw [hkeep2]
          have ihy := ih hadj2
          rw [hkeep2] at ihy
          simp only [noEndFor, Bool.and_eq_true, Bool.or_eq_true, Bool.not_eq_true',
            decide_eq_false_iff_not]
          exact ⟨Or.inr hy_nl, ihy⟩
      · cases hst : stripAtLineEnd c t with
        | nil => simp [noEndFor, hx]
        | cons z w =>
          have iht := ih hadj2
          rw [hst] at iht
          simp only [noEndFor, Bool.and_eq_true, Bool.or_eq_true, Bool.not_eq_true',
            decide_eq_false_iff_not]
          exact ⟨Or.inl hx, iht⟩

theorem noEnd_strip_other {c d : Char} (hc : isStrip c = true) (hd : isStrip d = true) :
    ∀ {l : List Char}, noAdjStrip l = true → noEndFor c l = true →
      noEndFor c (stripAtLineEnd d l) = true := by
  intro l
  induction l with
  | nil => intro _ _; rfl
  | cons x t ih =>
    intro hadj hend
    have hadj2 := noAdjStrip_tail hadj
    have hend2 := noEndFor_tail hend
    by_cases hcond : x = d ∧ nextIsLineEnd t = true
    · rw [strip_drop hcond]
      exact ih hadj2 hend2
    · rw [strip_keep hcond]
      by_cases hx : x = c
      · cases t with
        | nil =>
          exfalso
          simp only [noEndFor, Bool.not_eq_true', decide_eq_false_iff_not] at hend
          exact hend hx
        | cons y t2 =>
          simp only [noEndFor, Bool.and_eq_true, Bool.or_eq_true, Bool.not_eq_true',
            decide_eq_false_iff_not] at hend
          have hy_nl : ¬(y = '\n') := by
            rcases hend.1 with h1 | h1
            · exact absurd hx h1
            · exact h1
          have hy_strip : isStrip y = false := noAdjStrip_head hadj (by rw [hx]; exact hc)
          have hyd : ¬(y = d) := by
            intro hyd
            rw [hyd] at hy_strip
            rw [hd] at hy_strip
            exact Bool.noConfusion hy_strip
          have hkeep2 : stripAtLineEnd d (y :: t2) = y :: stripAtLineEnd d t2 :=
            strip_keep (fun hcc => hyd hcc.1)
          rw [hkeep2]
          have ihy := ih hadj2 hend2
          rw [hkeep2] at ihy
          simp only [noEndFor, Bool.and_eq_true, Bool.or_eq_true, Bool.not_eq_true',
            decide_eq_false_iff_not]
          exact ⟨Or.inr hy_nl, ihy⟩
      · cases hst : stripAtLineEnd d t with
        | nil => simp [noEndFor, hx]
        | cons z w =>
          have iht := ih hadj2 hend2
          rw [hst] at iht
          simp only [noEndFor, Bool.and_eq_true, Bool.or_eq_true, Bool.not_eq_true',
            decide_eq_false_iff_not]
          exact ⟨Or.inl hx, iht⟩

theorem noAdj_strip {c : Char} (hc : isStrip c = true) :
    ∀ {l : List Char}, noAdjStrip l = true → noAdjStrip (stripAtLineEnd c l) = true := by
  intro l
  induction l with
  | nil => intro _; rfl
  | cons x t ih =>
    intro hadj
    have hadj2 := noAdjStrip_tail hadj
    by_cases hcond : x = c ∧ nextIsLineEnd t = true
    · rw [strip_drop hcond]
      exact ih hadj2
    · rw [strip_keep hcond]
      cases hst : stripAtLineEnd c t with
      | nil => rfl
      | cons z w =>
        have iht := ih hadj2
        rw [hst] at iht
        simp only [noAdjStrip, Bool.and_eq_true, Bool.not_eq_true']
        refine ⟨?_, iht⟩
        cases hsx : isStrip x
        · simp
        · cases t with
          | nil =>
            rw [show stripAtLineEnd c ([] : List Char) = [] from rfl] at hst
            exact absurd hst (by simp)
          | cons y t2 =>
            have hy_strip : isStrip y = false := noAdjStrip_head hadj hsx
            have hyc : ¬(y = c) := by
              intro hyc
              rw [hyc] at hy_strip
              rw [hc] at hy_strip
              exact Bool.noConfusion hy_strip
            have hkeep2 : stripAtLineEnd c (y :: t2) = y :: stripAtLineEnd c t2 :=
              strip_keep (fun hcc => hyc hcc.1)
            rw [hkeep2] at hst
            injection hst with h1 h2
            rw [← h1, hy_strip]
            simp

/-- C7 (amended): the stripper is idempotent on every string in which no two
adjacent characters are both strippable (`。` or `、`); in particular a
single application already removes the one strippable character a line end
can expose. -/
theorem sanitizeCopy_idempotent_of_noAdj :
    ∀ s : String, noAdjStrip s.data = true →
      sanitizeCopy (sanitizeCopy s) = sanitizeCopy s := by
  intro s h
  by_cases hs : s = ""
  · rw [hs]
    rfl
  · have hst : sanitizeCopy s
        = String.mk (stripAtLineEnd '、' (stripAtLineEnd '。' s.data)) := by
      rw [sanitizeCopy, if_neg hs]
    rw [hst]
    rw [sanitizeCopy]
    by_cases h2 : String.mk (stripAtLineEnd '、' (stripAtLineEnd '。' s.data)) = ""
    · rw [if_pos h2]
    · rw [if_neg h2]
      have hc1 : isStrip '。' = true := by decide
      have hc2 : isStrip '、' = true := by decide
      have hadj1 : noAdjStrip (stripAtLineEnd '。' s.data) = true := noAdj_strip hc1 h
      have hA : noEndFor '。' (stripAtLineEnd '。' s.data) = true := noEnd_strip_self hc1 h
      have hB : noEndFor '。' (stripAtLineEnd '、' (stripAtLineEnd '。' s.data)) = true :=
        noEnd_strip_other hc1 hc2 hadj1 hA
      have hC : noEndFor '、' (stripAtLineEnd '、' (stripAtLineEnd '。' s.data)) = true :=
        noEnd_strip_self hc2 hadj1
      rw [show (String.mk (stripAtLineEnd '、' (stripAtLineEnd '。' s.data))).data
          = stripAtLineEnd '、' (stripAtLineEnd '。' s.data) from rfl]
      rw [strip_id_of_noEnd hB, strip_id_of_noEnd hC]

/-- C7 (witness): the amended idempotence on a concrete multi-line copy text
whose lines end in single strippable characters. -/
theorem sanitizeCopy_idempotent_witness :
    noAdjStrip ("見出し。\n本文、\n結論。" : String).data = true
    ∧ sanitizeCopy (sanitizeCopy "見出し。\n本文、\n結論。")
        = sanitizeCopy "見出し。\n本文、\n結論。" :=
  ⟨by decide, sanitizeCopy_idempotent_of_noAdj _ (by decide)⟩

/-! ## JSON values and `JSON.parse` (for the response sanitizer, C6)

`JSON.parse` is modelled by a recursive-descent parser over the character
list.  Numbers are kept as their lexemes (their numeric value is never
inspected by the sanitizer, only their truthiness).  The fuel argument of
the mutual value/element/field parsers only bounds nesting depth; it is
instantiated generously (`2 * length + 4`), which every input can reach
since each recursive call first consumes at least one character. -/

inductive Json where
  | null
  | bool (b : Bool)
  | num (lexeme : String)
  | str (s : String)
  | arr (elems : List Json)
  | obj (fields : List (String × Json))

/-- JSON insignificant whitespace: space, tab, line feed, carriage return. -/
def skipJsonWs : List Char → List Char
  | c :: t =>
    if c = ' ' ∨ c = '\t' ∨ c = '\n' ∨ c = '\r' then skipJsonWs t else c :: t
  | [] => []

def parseHexDigit (c : Char) : Option Nat :=
  if '0' ≤ c ∧ c ≤ '9' then some (c.toNat - '0'.toNat)
  else if 'a' ≤ c ∧ c ≤ 'f' then some (c.toNat - 'a'.toNat + 10)
  else if 'A' ≤ c ∧ c ≤ 'F' then some (c.toNat - 'A'.toNat + 10)
  else none

/-- The body of a JSON string after its opening quote: escapes are decoded,
unescaped control characters are rejected, and the closing quote ends the
string.  `acc` holds the decoded characters in reverse. -/
def parseJsonStringBody : List Char → List Char → Option (String × List Char)
  | acc, '"' :: t => some (String.mk acc.reverse, t)
  | acc, '\\' :: e :: t =>
    match e with
    | '"' => parseJsonStringBody ('"' :: acc) t
    | '\\' => parseJsonStringBody ('\\' :: acc) t
    | '/' => parseJsonStringBody ('/' :: acc) t
    | 'b' => parseJsonStringBody (Char.ofNat 8 :: acc) t
    | 'f' => parseJsonStringBody (Char.ofNat 12 :: acc) t
    | 'n' => parseJsonStringBody ('\n' :: acc) t
    | 'r' => parseJsonStringBody ('\r' :: acc) t
    | 't' => parseJsonStringBody ('\t' :: acc) t
    | 'u' =>
      match t with
      | h1 :: h2 :: h3 :: h4 :: t2 =>
        match parseHexDigit h1, parseHexDigit h2, parseHexDigit h3, parseHexDigit h4 with
        | some a, some b, some c, some d =>
          parseJsonStringBody (Char.ofNat (((a * 16 + b) * 16 + c) * 16 + d) :: acc) t2
        | _, _, _, _ => none
      | _ => none
    | _ => none
  | acc, c :: t => if c.toNat < 32 then none else parseJsonStringBody (c :: acc) t
  | _, [] => none

def takeDigits : List Char → List Char × List Char
  | c :: t =>
    if c.isDigit then
      let p := takeDigits t
      (c :: p.1, p.2)
    else ([], c :: t)
  | [] => ([], [])

/-- JSON integer part: `0 | [1-9][0-9]*`. -/
def parseIntPart : List Char → Option (List Char × List Char)
  | '0' :: t => some (['0'], t)
  | c :: t =>
    if c.isDigit then
      let p := takeDigits t
      some (c :: p.1, p.2)
    else none
  | [] => none

/-- JSON optional fraction part: `(. [0-9]+)?`. -/
def parseFracPart : List Char → Option (List Char × List Char)
  | '.' :: t =>
    match takeDigits t with
    | ([], _) => none
    | (ds, r) => some ('.' :: ds, r)
  | l => some ([], l)

/-- JSON optional exponent part: `([eE][+-]?[0-9]+)?`. -/
def parseExpPart : List Char → Option (List Char × List Char)
  | c :: t =>
    if c = 'e' ∨ c = 'E' then
      match t with
      | s :: t2 =>
        if s = '+' ∨ s = '-' then
          match takeDigits t2 with
          | ([], _) => none
          | (ds, r) => some (c :: s :: ds, r)
        else
          match takeDigits t with
          | ([], _) => none
          | (ds, r) => some (c :: ds, r)
      | [] => none
    else some ([], c :: t)
  | [] => some ([], [])

/-- A JSON number lexeme: `-? int frac? exp?`. -/
def parseNumberLexeme (l : List Char) : Option (String × List Char) :=
  match l with
  | '-' :: t =>
    match parseIntPart t with
    | none => none
    | some (ip, r1) =>
      match parseFracPart r1 with
      | none => none
      | some (fp, r2) =>
        match parseExpPart r2 with
        | none => none
        | some (ep, r3) => some (String.mk ('-' :: (ip ++ fp ++ ep)), r3)
  | _ =>
    match parseIntPart l with
    | none => none
    | some (ip, r1) =>
      match parseFracPart r1 with
      | none => none
      | some (fp, r2) =>
        match parseExpPart r2 with
        | none => none
        | some (ep, r3) => some (String.mk (ip ++ fp ++ ep), r3)

mutual

def parseValue : Nat → List Char → Option (Json × List Char)
  | 0, _ => none
  | fuel + 1, input =>
    match skipJsonWs input with
    | [] => none
    | 'n' :: 'u' :: 'l' :: 'l' :: t => some (Json.null, t)
    | 't' :: 'r' :: 'u' :: 'e' :: t => some (Json.bool true, t)
    | 'f' :: 'a' :: 'l' :: 's' :: 'e' :: t => some (Json.bool false, t)
    | '"' :: t =>
      match parseJsonStringBody [] t with
      | some (s, r) => some (Json.str s, r)
      | none => none
    | '[' :: t =>
      match skipJsonWs t with
      | ']' :: r => some (Json.arr [], r)
      | _ =>
        match parseElems fuel t with
        | some (es, r) => some (Json.arr es, r)
        | none => none
    | '{' :: t =>
      match skipJsonWs t with
      | '}' :: r => some (Json.obj [], r)
      | _ =>
        match parseFields fuel t with
        | some (fs, r) => some (Json.obj fs, r)
        | none => none
    | c :: t =>
      if c = '-' ∨ c.isDigit then
        match parseNumberLexeme (c :: t) with
        | some (lex, r) => some (Json.num lex, r)
        | none => none
      else none

def parseElems : Nat → List Char → Option (List Json × List Char)
  | 0, _ => none
  | fuel + 1, input =>
    match parseValue fuel input with
    | none => none
    | some (v, r) =>
      match skipJsonWs r with
      | ',' :: r2 =>
        match parseElems fuel r2 with
        | some (es, r3) => some (v :: es, r3)
        | none => none
      | ']' :: r2 => some ([v], r2)
      | _ => none

def parseFields : Nat → List Char → Option (List (String × Json) × List Char)
  | 0, _ => none
  | fuel + 1, input =>
    match skipJsonWs input with
    | '"' :: t =>
      match parseJsonStringBody [] t with
      | none => none
      | some (k, r) =>
        match skipJsonWs r with
        | ':' :: r2 =>
          match parseValue fuel r2 with
          | none => none
          | some (v, r3) =>
            match skipJsonWs r3 with
            | ',' :: r4 =>
              match parseFields fuel r4 with
              | some (fs, r5) => some ((k, v) :: fs, r5)
              | none => none
            | '}' :: r4 => some ([(k, v)], r4)
            | _ => none
        | _ => none
    | _ => none

end

/-- `JSON.parse(s)`: parse one value and require only whitespace after it;
otherwise the parse raises (modelled as `none`). -/
def jsonParse (s : String) : Option Json :=
  match parseValue (2 * s.length + 4) s.data with
  | some (v, rest) => if skipJsonWs rest = [] then some v else none
  | none => none

/-! ## Response extraction (geminiService.ts lines 722-746) -/

/-- Index of the first occurrence of `pat` as a contiguous block. -/
def findSubstrIdx (pat : List Char) : List Char → Option Nat
  | [] => if pat.isPrefixOf ([] : List Char) then some 0 else none
  | x :: t =>
    if pat.isPrefixOf (x :: t) then some 0
    else
      match findSubstrIdx pat t with
      | some i => some (i + 1)
      | none => none

/-- The markdown extraction of geminiService.ts line 726.  Pattern 1 is a
lazy match between the leftmost occurrence of three backticks, the letters
json and a newline, and the earliest following newline plus three backticks;
pattern 2 is the same between bare triple-backtick fences.  (The leftmost
whole match always starts at the first occurrence of the opening token:
any closing token usable by a later opening is also usable by the first.) -/
def extractJsonBlock (text : List Char) : Option (List Char) :=
  match findSubstrIdx ("```json\n".data) text with
  | some i =>
    match findSubstrIdx ("\n```".data) (text.drop (i + 8)) with
    | some j => some ((text.drop (i + 8)).take j)
    | none =>
      match findSubstrIdx ("```".data) text with
      | some i2 =>
        match findSubstrIdx ("```".data) (text.drop (i2 + 3)) with
        | some j2 => some ((text.drop (i2 + 3)).take j2)
        | none => none
      | none => none
  | none =>
    match findSubstrIdx ("```".data) text with
    | some i2 =>
      match findSubstrIdx ("```".data) (text.drop (i2 + 3)) with
      | some j2 => some ((text.drop (i2 + 3)).take j2)
      | none => none
    | none => none

/-- JavaScript `String.prototype.trim`, restricted to the ASCII whitespace
that can occur in provider responses. -/
def trimChars (l : List Char) : List Char :=
  ((l.dropWhile Char.isWhitespace).reverse.dropWhile Char.isWhitespace).reverse

/-- `jsonStr` of geminiService.ts line 727: the trimmed capture group when a
code block matched with a non-empty (truthy) group, else the trimmed whole
text. -/
def jsonStrOf (text : String) : List Char :=
  match extractJsonBlock text.data with
  | some g => if g = [] then trimChars text.data else trimChars g
  | none => trimChars text.data

/-- Index of the last occurrence of `c` (JavaScript `lastIndexOf`). -/
def lastIdxOf (c : Char) (l : List Char) : Option Nat :=
  match List.findIdx? (fun x => x = c) l.reverse with
  | some i => some (l.length - 1 - i)
  | none => none

/-- `parseJsonResponse` (geminiService.ts 722-746): empty-response check,
code-block extraction, brace boundaries (`indexOf('{')` / `lastIndexOf('}')`,
raising when either is absent), `JSON.parse` of the substring between them
(a parse failure raises a SyntaxError), and the final non-null-object check
(which `JSON.parse` output starting at a brace can only fail by being
unreachable; arrays also pass `typeof === 'object'`).  When the last brace
precedes the first one, the substring is empty-or-swapped in JavaScript and
parsing raises either way; the model takes the empty substring. -/
def parseJsonResponse (text : Option String) : Except String Json :=
  match text with
  | none => Except.error "AIからの応答が空でした。"
  | some t =>
    if t = "" then Except.error "AIからの応答が空でした。"
    else
      match List.findIdx? (fun ch => ch = '{') (jsonStrOf t), lastIdxOf '}' (jsonStrOf t) with
      | some startIndex, some endIndex =>
        match jsonParse (String.mk (((jsonStrOf t).drop startIndex).take
            (endIndex + 1 - startIndex))) with
        | none => Except.error "SyntaxError: Unexpected token in JSON"
        | some parsed =>
          match parsed with
          | Json.obj fs => Except.ok (Json.obj fs)
          | Json.arr es => Except.ok (Json.arr es)
          | _ => Except.error "AIが有効なJSONオブジェクトを返しませんでした。"
      | _, _ => Except.error "有効なJSONが見つかりませんでした。"

/-- The response contains an extractable object: object boundaries exist in
the extracted text and the substring between them parses to a non-null
object. -/
def extractableObject (text : Option String) : Bool :=
  match text with
  | none => false
  | some t =>
    if t = "" then false
    else
      match List.findIdx? (fun ch => ch = '{') (jsonStrOf t), lastIdxOf '}' (jsonStrOf t) with
      | some startIndex, some endIndex =>
        match jsonParse (String.mk (((jsonStrOf t).drop startIndex).take
            (endIndex + 1 - startIndex))) with
        | some (Json.obj _) => true
        | some (Json.arr _) => true
        | _ => false
      | _, _ => false

def isOkB {ε α : Type} : Except ε α → Bool
  | Except.ok _ => true
  | Except.error _ => false

/-! ## Profile sanitization (geminiService.ts lines 259-274) -/

/-- JavaScript object property lookup on parsed JSON: the last binding of a
duplicated key wins. -/
def lookupField : List (String × Json) → String → Option Json
  | [], _ => none
  | kv :: rest, key =>
    match lookupField rest key with
    | some v2 => some v2
    | none => if kv.1 = key then some kv.2 else none

/-- `parsed.key` on a JSON value: only objects have properties. -/
def getField (j : Json) (key : String) : Option Json :=
  match j with
  | Json.obj fs => lookupField fs key
  | _ => none

/-- Is the numeric lexeme the number zero (all mantissa digits 0)? -/
def numLexIsZero (lex : String) : Bool :=
  ((lex.data.takeWhile fun c => ¬(c = 'e' ∨ c = 'E')).filter fun c => ¬(c = '-')).all
    fun c => c = '0' ∨ c = '.'

/-- JavaScript falsiness of a parsed-JSON value (`undefined` is the missing
case, handled at the lookup). -/
def Json.isFalsy : Json → Bool
  | Json.null => true
  | Json.bool b => !b
  | Json.num lex => numLexIsZero lex
  | Json.str s => s = ""
  | Json.arr _ => false
  | Json.obj _ => false

/-- `if (!parsed.key) parsed.key = placeholder` for a string field. -/
def fieldOrPlaceholder (parsed : Json) (key placeholder : String) : Json :=
  match getField parsed key with
  | some v => if v.isFalsy then Json.str placeholder else v
  | none => Json.str placeholder

/-- The profile produced by the sanitization block of `analyzeProductContext`
(geminiService.ts 261-274), with each field holding the parsed value or the
code's default. -/
structure SanitizedProfile where
  productName : Json
  category : Json
  targetAudience : Json
  uniqueValueProposition : Json
  toneOfVoice : Json
  painPoints : List Json
  solutions : List Json

/-- The field-level sanitization of geminiService.ts 261-274: array fields
are kept only when present and an array (else emptied); `toneOfVoice` is
kept only when a non-empty string; the remaining required string fields get
fixed placeholders when falsy or missing.  This function is total: this
stage never raises. -/
def analyzeSanitize (parsed : Json) : SanitizedProfile :=
  { painPoints :=
      match getField parsed "painPoints" with
      | some (Json.arr xs) => xs
      | _ => []
    solutions :=
      match getField parsed "solutions" with
      | some (Json.arr xs) => xs
      | _ => []
    toneOfVoice :=
      match getField parsed "toneOfVoice" with
      | some (Json.str s) =>
        if s = "" then Json.str "信頼感, プロフェッショナル" else Json.str s
      | _ => Json.str "信頼感, プロフェッショナル"
    productName := fieldOrPlaceholder parsed "productName" "名称未設定"
    category := fieldOrPlaceholder parsed "category" "未分類"
    targetAudience :=
      fieldOrPlaceholder parsed "targetAudience" "ターゲット層が特定できませんでした"
    uniqueValueProposition :=
      fieldOrPlaceholder parsed "uniqueValueProposition" "UVPが生成されませんでした" }

/-- `analyzeProductContext` (geminiService.ts 172-286) restricted to its
response-processing tail: parse the provider text, then sanitize; any raise
comes from `parseJsonResponse` alone. -/
def analyzeProductContext (responseText : Option String) : Except String SanitizedProfile :=
  match parseJsonResponse responseText with
  | Except.ok parsed => Except.ok (analyzeSanitize parsed)
  | Except.error e => Except.error e

/-! ## Claim C6: sanitization raises iff no extractable object -/

/-- C6: (a) response processing succeeds exactly when the response contains
an extractable object (object boundaries exist and the text between them
parses to a non-null object) — so it raises exactly when there is none; and
(b) when parsing succeeds, the field sanitization itself never raises (it is
total): a missing or non-array painPoints field becomes the empty array and
missing required string fields become the fixed placeholders. -/
theorem sanitizer_raises_iff_no_object :
    ∀ (text : Option String),
      (isOkB (parseJsonResponse text) = true ↔ extractableObject text = true)
      ∧ (∀ j, parseJsonResponse text = Except.ok j →
          analyzeProductContext text = Except.ok (analyzeSanitize j)
          ∧ ((∀ xs, getField j "painPoints" ≠ some (Json.arr xs)) →
              (analyzeSanitize j).painPoints = [])
          ∧ (getField j "targetAudience" = none →
              (analyzeSanitize j).targetAudience
                = Json.str "ターゲット層が特定できませんでした")
          ∧ (getField j "productName" = none →
              (analyzeSanitize j).productName = Json.str "名称未設定")) := by
  intro text
  constructor
  · cases text with
    | none => simp [parseJsonResponse, extractableObject, isOkB]
    | some t =>
      by_cases ht : t = ""
      · simp [parseJsonResponse, extractableObject, ht, isOkB]
      · simp only [parseJsonResponse, extractableObject, if_neg ht]
        rcases h1 : List.findIdx? (fun ch => ch = '{') (jsonStrOf t) with _ | si
        · simp [isOkB]
        · rcases h2 : lastIdxOf '}' (jsonStrOf t) with _ | ei
          · simp [isOkB]
          · rcases h3 : jsonParse (String.mk (((jsonStrOf t).drop si).take (ei + 1 - si)))
              with _ | v
            · simp [isOkB, h3]
            · cases v <;> simp [isOkB, h3]
  · intro j hj
    refine ⟨?_, ?_, ?_, ?_⟩
    · rw [analyzeProductContext, hj]
    · intro hnp
      rcases hg : getField j "painPoints" with _ | v
      · simp [analyzeSanitize, hg]
      · cases v <;> first
          | exact absurd hg (hnp _)
          | simp [analyzeSanitize, hg]
    · intro hta
      simp [analyzeSanitize, fieldOrPlaceholder, hta]
    · intro hpn
      simp [analyzeSanitize, fieldOrPlaceholder, hpn]

/-- A provider response wrapping a profile object (with no painPoints and no
targetAudience) in a markdown code block. -/
def c6Response : String := "```json\n\x7b\"productName\": \"X\"\x7d\n```"

/-- The object extracted from `c6Response`. -/
def c6Json : Json := Json.obj [("productName", Json.str "X")]

/-- C6 (witness): on the concrete code-block response, processing succeeds,
the sanitizer fills painPoints with the empty array and targetAudience with
its placeholder; and on a response with braces around a non-JSON payload,
processing raises even though no crash occurs in the sanitizer. -/
theorem sanitizer_raises_iff_no_object_witness :
    isOkB (parseJsonResponse (some c6Response)) = true
    ∧ analyzeProductContext (some c6Response) = Except.ok (analyzeSanitize c6Json)
    ∧ (analyzeSanitize c6Json).painPoints = []
    ∧ (analyzeSanitize c6Json).targetAudience
        = Json.str "ターゲット層が特定できませんでした"
    ∧ isOkB (parseJsonResponse (some "\x7boops\x7d")) = false := by
  have h := sanitizer_raises_iff_no_object (some c6Response)
  have hj : parseJsonResponse (some c6Response) = Except.ok c6Json := by rfl
  have h2 := h.2 c6Json hj
  refine ⟨h.1.mpr (by rfl), h2.1, h2.2.1 (fun xs hx => Option.noConfusion hx),
    h2.2.2.1 rfl, ?_⟩
  have hq := (sanitizer_raises_iff_no_object (some "\x7boops\x7d")).1
  cases hok : isOkB (parseJsonResponse (some "\x7boops\x7d")) with
  | false => rfl
  | true =>
    have := hq.mp hok
    exact absurd this (by decide)
